import Mathlib

/-!
Verification of the geodesic-arc / ideal-triangle computation from
`src/ideal_triangles.py`.

The Python function `geodesic_arc(p1, p2, num_points)` truncates its inputs
to 2D, tests for (approximately) antipodal inputs via `np.allclose(p1, -p2,
atol=1e-6)` (numpy default `rtol=1e-5`), and either returns `num_points`
linearly interpolated samples of the diameter segment, or constructs the
circle through `p1`, `p2` orthogonal to the unit circle and samples an arc
of it.  All machine floats are modelled as exact real numbers; `np.arctan2`
is modelled by `Complex.arg`, `np.linalg.norm` by `Real.sqrt` of the sum of
squares, and `np.linspace` by its defining affine formula.
-/

open Real

noncomputable section

attribute [local instance] Classical.propDecidable

/-- A 2D point, `(x, y)`. -/
abbrev Point2 := ℝ × ℝ

/-- A 3D point `(x, y, z)`; the code embeds 2D points with `z = 0`. -/
abbrev Point3 := ℝ × ℝ × ℝ

/-- `np.arctan2 y x`: the angle of the vector `(x, y)`, in `(-π, π]`. -/
def atan2 (y x : ℝ) : ℝ := Complex.arg ⟨x, y⟩

/-- `np.linalg.norm` of a 2D vector. -/
def npnorm (v : Point2) : ℝ := Real.sqrt (v.1 ^ 2 + v.2 ^ 2)

/-- Absolute tolerance `1e-6` passed to `np.allclose` at line 32. -/
def atol : ℝ := 1 / 10 ^ 6

/-- Relative tolerance `1e-5`, the numpy default for `np.allclose`. -/
def rtol : ℝ := 1 / 10 ^ 5

/-- The `1e-10` threshold of the degenerate-coefficient test at line 69. -/
def degTol : ℝ := 1 / 10 ^ 10

/-- `np.allclose(p1, -p2, atol=1e-6)` (componentwise, numpy default
`rtol=1e-5`): the antipodal test of line 32. -/
def allcloseNeg (p1 p2 : Point2) : Prop :=
  |p1.1 - -p2.1| ≤ atol + rtol * |(-p2.1)| ∧ |p1.2 - -p2.2| ≤ atol + rtol * |(-p2.2)|

/-- `np.linspace a b n`: `n` evenly spaced samples from `a` to `b`. -/
def linspace (a b : ℝ) (n : ℕ) : List ℝ :=
  (List.range n).map (fun k : ℕ => a + (k : ℝ) * ((b - a) / ((n : ℝ) - 1)))

/-- The diameter fallback (lines 33-35 and 71-73): `num_points` points
linearly interpolated from `p1` to `p2`, embedded in 3D with `z = 0`. -/
def diameterPoints (p1 p2 : Point2) (n : ℕ) : List Point3 :=
  (linspace 0 1 n).map
    (fun t => ((1 - t) * p1.1 + t * p2.1, (1 - t) * p1.2 + t * p2.2, 0))

/-- `mid = (p1 + p2) / 2` (line 48). -/
def midpt (p1 p2 : Point2) : Point2 := ((p1.1 + p2.1) / 2, (p1.2 + p2.2) / 2)

/-- The unnormalized perpendicular `(-(p2[1]-p1[1]), p2[0]-p1[0])` (line 51). -/
def perpRaw (p1 p2 : Point2) : Point2 := (-(p2.2 - p1.2), p2.1 - p1.1)

/-- The normalized perpendicular to the chord (lines 51-52). -/
def perp (p1 p2 : Point2) : Point2 :=
  ((perpRaw p1 p2).1 / npnorm (perpRaw p1 p2), (perpRaw p1 p2).2 / npnorm (perpRaw p1 p2))

/-- `d = mid - p1` (line 63). -/
def dvec (p1 p2 : Point2) : Point2 :=
  ((midpt p1 p2).1 - p1.1, (midpt p1 p2).2 - p1.2)

/-- `lhs = d·d - mid·mid + 1` (line 66). -/
def lhsVal (p1 p2 : Point2) : ℝ :=
  ((dvec p1 p2).1 * (dvec p1 p2).1 + (dvec p1 p2).2 * (dvec p1 p2).2)
    - ((midpt p1 p2).1 * (midpt p1 p2).1 + (midpt p1 p2).2 * (midpt p1 p2).2) + 1

/-- `rhs_coeff = 2 * p1 · perp` (line 67). -/
def rhsCoeff (p1 p2 : Point2) : ℝ :=
  2 * (p1.1 * (perp p1 p2).1 + p1.2 * (perp p1 p2).2)

/-- `t_param = lhs / rhs_coeff` (line 75). -/
def tParam (p1 p2 : Point2) : ℝ := lhsVal p1 p2 / rhsCoeff p1 p2

/-- `center = mid + t_param * perp` (line 76). -/
def center (p1 p2 : Point2) : Point2 :=
  ((midpt p1 p2).1 + tParam p1 p2 * (perp p1 p2).1,
   (midpt p1 p2).2 + tParam p1 p2 * (perp p1 p2).2)

/-- `radius = ‖p1 - center‖` (line 77). -/
def radius (p1 p2 : Point2) : ℝ :=
  npnorm (p1.1 - (center p1 p2).1, p1.2 - (center p1 p2).2)

/-- `angle1 = arctan2(p1 - center)` (line 80). -/
def angle1 (p1 p2 : Point2) : ℝ :=
  atan2 (p1.2 - (center p1 p2).2) (p1.1 - (center p1 p2).1)

/-- `angle2 = arctan2(p2 - center)` (line 81). -/
def angle2 (p1 p2 : Point2) : ℝ :=
  atan2 (p2.2 - (center p1 p2).2) (p2.1 - (center p1 p2).1)

/-- The point `center + radius * (cos a, sin a)` on the constructed circle. -/
def pointAt (p1 p2 : Point2) (a : ℝ) : Point2 :=
  ((center p1 p2).1 + radius p1 p2 * Real.cos a,
   (center p1 p2).2 + radius p1 p2 * Real.sin a)

/-- The angle pair after the ordering swap of lines 88-90. -/
def orderedAngles (p1 p2 : Point2) : ℝ × ℝ :=
  if angle2 p1 p2 < angle1 p1 p2 then (angle2 p1 p2, angle1 p1 p2)
  else (angle1 p1 p2, angle2 p1 p2)

/-- `mid_angle = (angle1 + angle2) / 2` (line 93). -/
def midAngle (p1 p2 : Point2) : ℝ :=
  ((orderedAngles p1 p2).1 + (orderedAngles p1 p2).2) / 2

/-- The angle pair after the direction check of lines 96-99: if the arc
midpoint lies outside the unit circle, `angle2 -= 2π` followed by a swap. -/
def finalAngles (p1 p2 : Point2) : ℝ × ℝ :=
  if 1 < npnorm (pointAt p1 p2 (midAngle p1 p2)) then
    ((orderedAngles p1 p2).2 - 2 * π, (orderedAngles p1 p2).1)
  else orderedAngles p1 p2

/-- The sampled points of the general case (lines 101-107). -/
def arcPoints (p1 p2 : Point2) (n : ℕ) : List Point3 :=
  (linspace (finalAngles p1 p2).1 (finalAngles p1 p2).2 n).map
    (fun a => ((pointAt p1 p2 a).1, (pointAt p1 p2 a).2, 0))

/-- `geodesic_arc` on 2D points (the body after the `[:2]` truncation). -/
def geodesicArcP (p1 p2 : Point2) (n : ℕ) : List Point3 :=
  if allcloseNeg p1 p2 then diameterPoints p1 p2 n
  else if |rhsCoeff p1 p2| < degTol then diameterPoints p1 p2 n
  else arcPoints p1 p2 n

/-- `p[:2]` on a point given as a coordinate list (lines 28-29). -/
def take2 (p : List ℝ) : Point2 := (p.getD 0 0, p.getD 1 0)

/-- `geodesic_arc(p1, p2, num_points)` (lines 13-107). -/
def geodesic_arc (p1 p2 : List ℝ) (n : ℕ) : List Point3 :=
  geodesicArcP (take2 p1) (take2 p2) n

/-- A guarded variant of `geodesic_arc` that returns `none` exactly when one
of the two divisions the code performs (the normalization of `perp` by
`‖p2 - p1‖` at line 52 and `lhs / rhs_coeff` at line 75) would divide by
zero. -/
def geodesicArcChecked (p1 p2 : Point2) (n : ℕ) : Option (List Point3) :=
  if allcloseNeg p1 p2 then some (diameterPoints p1 p2 n)
  else if npnorm (perpRaw p1 p2) = 0 then none
  else if |rhsCoeff p1 p2| < degTol then some (diameterPoints p1 p2 n)
  else if rhsCoeff p1 p2 = 0 then none
  else some (arcPoints p1 p2 n)

/-- The boundary point `(cos a, sin a, 0)` used by `IdealTriangle.__init__`
(lines 137-138). -/
def unitPoint (a : ℝ) : List ℝ := [Real.cos a, Real.sin a, 0]

/-- Scaling of a sample by the disk radius (line 141). -/
def scalePt (r : ℝ) (q : Point3) : Point3 := (r * q.1, r * q.2.1, r * q.2.2)

/-- One side of the triangle: scaled geodesic samples with the last sample
dropped (`scaled_points[:-1]`, line 142). -/
def sidePoints (t1 t2 r : ℝ) (n : ℕ) : List Point3 :=
  ((geodesic_arc (unitPoint t1) (unitPoint t2) n).map (scalePt r)).dropLast

/-- `all_points`: the three concatenated sides (loop of lines 135-142). -/
def triAllPoints (t0 t1 t2 r : ℝ) (n : ℕ) : List Point3 :=
  sidePoints t0 t1 r n ++ sidePoints t1 t2 r n ++ sidePoints t2 t0 r n

/-- The closed polyline built by `IdealTriangle.__init__` (lines 134-144):
three concatenated sides, with the first point appended again at the end
(`all_points + [all_points[0]]`, line 144). -/
def idealTrianglePoints (t0 t1 t2 r : ℝ) (n : ℕ) : List Point3 :=
  triAllPoints t0 t1 t2 r n ++ [(triAllPoints t0 t1 t2 r n).headI]

/-- A sequence of calls to `geodesic_arc`: the module keeps no mutable state
between calls, so a call history is just the list of per-call results. -/
def runCalls (calls : List (Point2 × Point2 × ℕ)) : List (List Point3) :=
  calls.map (fun c => geodesicArcP c.1 c.2.1 c.2.2)

theorem length_linspace (a b : ℝ) (n : ℕ) : (linspace a b n).length = n := by
  unfold linspace
  rw [List.length_map, List.length_range]

theorem length_diameterPoints (p1 p2 : Point2) (n : ℕ) :
    (diameterPoints p1 p2 n).length = n := by
  simp [diameterPoints, length_linspace]

theorem length_arcPoints (p1 p2 : Point2) (n : ℕ) :
    (arcPoints p1 p2 n).length = n := by
  simp [arcPoints, length_linspace]

theorem length_geodesicArcP (p1 p2 : Point2) (n : ℕ) :
    (geodesicArcP p1 p2 n).length = n := by
  unfold geodesicArcP
  split_ifs <;> simp [length_diameterPoints, length_arcPoints]

theorem length_geodesic_arc (p1 p2 : List ℝ) (n : ℕ) :
    (geodesic_arc p1 p2 n).length = n :=
  length_geodesicArcP _ _ n

theorem npnorm_nonneg (v : Point2) : 0 ≤ npnorm v := Real.sqrt_nonneg _

theorem npnorm_sq (v : Point2) : npnorm v ^ 2 = v.1 ^ 2 + v.2 ^ 2 :=
  Real.sq_sqrt (by positivity)

theorem npnorm_eq_zero_iff (v : Point2) : npnorm v = 0 ↔ v = (0, 0) := by
  unfold npnorm
  rw [Real.sqrt_eq_zero (by positivity)]
  constructor
  · intro h
    have h1 : v.1 = 0 := by nlinarith [sq_nonneg v.1, sq_nonneg v.2]
    have h2 : v.2 = 0 := by nlinarith [sq_nonneg v.1, sq_nonneg v.2]
    exact Prod.ext h1 h2
  · intro h; rw [h]; norm_num

theorem perpRaw_ne_zero {p1 p2 : Point2} (hne : p1 ≠ p2) : perpRaw p1 p2 ≠ (0, 0) := by
  intro h
  apply hne
  have h1 := congrArg Prod.fst h
  have h2 := congrArg Prod.snd h
  simp only [perpRaw] at h1 h2
  exact Prod.ext (by linarith) (by linarith)

theorem length_sidePoints (t1 t2 r : ℝ) (n : ℕ) :
    (sidePoints t1 t2 r n).length = n - 1 := by
  unfold sidePoints
  rw [List.length_dropLast, List.length_map, length_geodesic_arc]

/-- C3: `IdealTriangle.__init__` with angles `[0, 2π/3, 4π/3]`, radius 2.5
and 200 points per side produces a polyline whose first and last points are
identical and whose total point count is `3·(200 − 1) + 1`: the last sample
of each of the three concatenated sides is dropped and the first point of
the whole sequence is appended again at the end. -/
theorem ideal_triangle_closure_count :
    (idealTrianglePoints 0 (2 * π / 3) (4 * π / 3) (5 / 2) 200).length = 3 * (200 - 1) + 1 ∧
    (idealTrianglePoints 0 (2 * π / 3) (4 * π / 3) (5 / 2) 200).head? =
      (idealTrianglePoints 0 (2 * π / 3) (4 * π / 3) (5 / 2) 200).getLast? := by
  have hlen : (triAllPoints 0 (2 * π / 3) (4 * π / 3) (5 / 2) 200).length = 597 := by
    unfold triAllPoints
    rw [List.length_append, List.length_append, length_sidePoints, length_sidePoints,
      length_sidePoints]
  obtain ⟨x, xs, hx⟩ := List.exists_cons_of_ne_nil
    (l := triAllPoints 0 (2 * π / 3) (4 * π / 3) (5 / 2) 200)
    (by intro h; rw [h] at hlen; simp at hlen)
  constructor
  · unfold idealTrianglePoints
    rw [List.length_append, hlen]
    rfl
  · unfold idealTrianglePoints
    rw [hx]
    rw [List.getLast?_concat]
    simp


/-- C9: `geodesic_arc` is a deterministic function of its arguments: in any
call history, the result of a call is determined solely by that call's
arguments, with no dependence on the calls that preceded it. -/
theorem geodesic_arc_deterministic (pre1 pre2 : List (Point2 × Point2 × ℕ))
    (c : Point2 × Point2 × ℕ) :
    (runCalls (pre1 ++ [c])).getLast? = (runCalls (pre2 ++ [c])).getLast? := by
  unfold runCalls
  rw [List.map_append, List.map_append]
  rw [show List.map (fun c : Point2 × Point2 × ℕ => geodesicArcP c.1 c.2.1 c.2.2) [c]
      = [geodesicArcP c.1 c.2.1 c.2.2] from rfl]
  rw [List.getLast?_concat, List.getLast?_concat]

theorem take2_congr {l l' : List ℝ} (h : l.take 2 = l'.take 2) : take2 l = take2 l' := by
  unfold take2
  have h0 : l[0]? = l'[0]? := by
    have := congrArg (fun t => t[0]?) h
    simpa [List.getElem?_take_of_lt (by norm_num : (0 : ℕ) < 2)] using this
  have h1 : l[1]? = l'[1]? := by
    have := congrArg (fun t => t[1]?) h
    simpa [List.getElem?_take_of_lt (by norm_num : (1 : ℕ) < 2)] using this
  rw [List.getD_eq_getElem?_getD, List.getD_eq_getElem?_getD,
    List.getD_eq_getElem?_getD, List.getD_eq_getElem?_getD, h0, h1]

/-- C10: `geodesic_arc` depends only on the first two coordinates of each
input point (the code truncates with `p[:2]` before any computation), so
altering coordinates beyond the first two leaves the output unchanged. -/
theorem depends_on_first_two_coords (p1 p2 q1 q2 : List ℝ) (n : ℕ)
    (h1 : p1.take 2 = q1.take 2) (h2 : p2.take 2 = q2.take 2) :
    geodesic_arc p1 p2 n = geodesic_arc q1 q2 n := by
  unfold geodesic_arc
  rw [take2_congr h1, take2_congr h2]

/-- Witness for C10, with differing third coordinates. -/
theorem depends_on_first_two_coords_witness :
    ([1, 0, 5] : List ℝ).take 2 = ([1, 0, -3] : List ℝ).take 2 ∧
    ([0, 1, 2] : List ℝ).take 2 = ([0, 1, 7] : List ℝ).take 2 ∧
    geodesic_arc [1, 0, 5] [0, 1, 2] 7 = geodesic_arc [1, 0, -3] [0, 1, 7] 7 :=
  ⟨rfl, rfl, depends_on_first_two_coords _ _ _ _ 7 rfl rfl⟩

/-- C7: inputs that get past the antipodal check but have degenerate
orthogonal-circle coefficient `|rhs_coeff| < 1e-10` produce the same
linear-interpolation diameter fallback as the antipodal case, without
raising any error. -/
theorem degenerate_fallback (p1 p2 : Point2) (n : ℕ)
    (h1 : ¬allcloseNeg p1 p2) (h2 : |rhsCoeff p1 p2| < degTol) :
    geodesicArcP p1 p2 n = diameterPoints p1 p2 n := by
  unfold geodesicArcP
  rw [if_neg h1, if_pos h2]

/-- Witness for C7 at `p1 = (0,0)`, `p2 = (1,0)`. -/
theorem degenerate_fallback_witness :
    ¬allcloseNeg ((0 : ℝ), (0 : ℝ)) ((1 : ℝ), (0 : ℝ)) ∧
    |rhsCoeff ((0 : ℝ), (0 : ℝ)) ((1 : ℝ), (0 : ℝ))| < degTol ∧
    geodesicArcP ((0 : ℝ), (0 : ℝ)) ((1 : ℝ), (0 : ℝ)) 2 =
      diameterPoints ((0 : ℝ), (0 : ℝ)) ((1 : ℝ), (0 : ℝ)) 2 := by
  have h1 : ¬allcloseNeg ((0 : ℝ), (0 : ℝ)) ((1 : ℝ), (0 : ℝ)) := by
    intro h
    have h' := h.1
    rw [atol, rtol] at h'
    norm_num at h'
  have h2 : |rhsCoeff ((0 : ℝ), (0 : ℝ)) ((1 : ℝ), (0 : ℝ))| < degTol := by
    have hz : rhsCoeff ((0 : ℝ), (0 : ℝ)) ((1 : ℝ), (0 : ℝ)) = 0 := by
      unfold rhsCoeff
      norm_num
    rw [hz, degTol]
    norm_num
  exact ⟨h1, h2, degenerate_fallback _ _ 2 h1 h2⟩

/-- C8: for inputs whose 2D projections differ, neither of the two divisions
performed by `geodesic_arc` (normalizing `perp` by `‖p2 - p1‖`, and
`lhs / rhs_coeff`) divides by zero: the guarded variant succeeds and agrees
with the unguarded function. -/
theorem no_exception_distinct (p1 p2 : Point2) (n : ℕ) (hne : p1 ≠ p2) :
    geodesicArcChecked p1 p2 n = some (geodesicArcP p1 p2 n) := by
  unfold geodesicArcChecked geodesicArcP
  by_cases h1 : allcloseNeg p1 p2
  · rw [if_pos h1, if_pos h1]
  · rw [if_neg h1, if_neg h1]
    have hperp : ¬npnorm (perpRaw p1 p2) = 0 := by
      rw [npnorm_eq_zero_iff]
      exact perpRaw_ne_zero hne
    rw [if_neg hperp]
    by_cases h2 : |rhsCoeff p1 p2| < degTol
    · rw [if_pos h2, if_pos h2]
    · rw [if_neg h2, if_neg h2]
      have hrhs : ¬rhsCoeff p1 p2 = 0 := by
        intro h
        apply h2
        rw [h, degTol]
        norm_num
      rw [if_neg hrhs]

/-- Witness for C8 at `p1 = (1,0)`, `p2 = (0,1)`. -/
theorem no_exception_distinct_witness :
    ((1 : ℝ), (0 : ℝ)) ≠ ((0 : ℝ), (1 : ℝ)) ∧
    geodesicArcChecked ((1 : ℝ), (0 : ℝ)) ((0 : ℝ), (1 : ℝ)) 5 =
      some (geodesicArcP ((1 : ℝ), (0 : ℝ)) ((0 : ℝ), (1 : ℝ)) 5) := by
  have hne : ((1 : ℝ), (0 : ℝ)) ≠ ((0 : ℝ), (1 : ℝ)) := by
    intro h
    have h' := congrArg Prod.fst h
    norm_num at h'
  exact ⟨hne, no_exception_distinct _ _ 5 hne⟩

theorem diameterPoints_getElem (p1 p2 : Point2) (n k : ℕ) (hk : k < n) :
    (diameterPoints p1 p2 n)[k]? =
      some ((1 - (k : ℝ) / ((n : ℝ) - 1)) * p1.1 + ((k : ℝ) / ((n : ℝ) - 1)) * p2.1,
        (1 - (k : ℝ) / ((n : ℝ) - 1)) * p1.2 + ((k : ℝ) / ((n : ℝ) - 1)) * p2.2, 0) := by
  unfold diameterPoints linspace
  rw [List.getElem?_map, List.getElem?_map, List.getElem?_range hk]
  simp only [Option.map_some', Option.some.injEq, Prod.mk.injEq]
  refine ⟨by ring, by ring, trivial⟩

/-- C6: when `p1` and `p2` are antipodal within tolerance `1e-6`
(componentwise), `geodesic_arc` returns exactly `n` points linearly
interpolated from `p1` to `p2` inclusive, each embedded in 3D with
z-component 0. -/
theorem antipodal_case_linear (p1 p2 : Point2) (n : ℕ)
    (h1 : |p1.1 + p2.1| ≤ atol) (h2 : |p1.2 + p2.2| ≤ atol) (hn : 2 ≤ n) :
    (geodesicArcP p1 p2 n).length = n ∧
    (∀ k : ℕ, k < n →
      (geodesicArcP p1 p2 n)[k]? =
        some ((1 - (k : ℝ) / ((n : ℝ) - 1)) * p1.1 + ((k : ℝ) / ((n : ℝ) - 1)) * p2.1,
          (1 - (k : ℝ) / ((n : ℝ) - 1)) * p1.2 + ((k : ℝ) / ((n : ℝ) - 1)) * p2.2, 0)) ∧
    (geodesicArcP p1 p2 n).head? = some (p1.1, p1.2, 0) ∧
    (geodesicArcP p1 p2 n).getLast? = some (p2.1, p2.2, 0) := by
  have hac : allcloseNeg p1 p2 := by
    constructor
    · rw [sub_neg_eq_add]
      exact le_trans h1 (le_add_of_nonneg_right
        (mul_nonneg (by rw [rtol]; norm_num) (abs_nonneg _)))
    · rw [sub_neg_eq_add]
      exact le_trans h2 (le_add_of_nonneg_right
        (mul_nonneg (by rw [rtol]; norm_num) (abs_nonneg _)))
  have heq : geodesicArcP p1 p2 n = diameterPoints p1 p2 n := by
    unfold geodesicArcP
    rw [if_pos hac]
  have hnR : (1 : ℝ) ≤ (n : ℝ) := by
    have : (1 : ℕ) ≤ n := le_trans (by norm_num) hn
    exact_mod_cast this
  have hne1 : (n : ℝ) - 1 ≠ 0 := by
    have : (2 : ℝ) ≤ (n : ℝ) := by exact_mod_cast hn
    intro h
    nlinarith
  refine ⟨by rw [heq]; exact length_diameterPoints _ _ _, ?_, ?_, ?_⟩
  · intro k hk
    rw [heq, diameterPoints_getElem _ _ _ _ hk]
  · rw [heq, List.head?_eq_getElem?,
      diameterPoints_getElem _ _ _ 0 (by omega : 0 < n)]
    norm_num
  · rw [heq, List.getLast?_eq_getElem?, length_diameterPoints,
      diameterPoints_getElem _ _ _ (n - 1) (by omega : n - 1 < n)]
    have hcast : ((n - 1 : ℕ) : ℝ) = (n : ℝ) - 1 := by
      rw [Nat.cast_sub (by omega : 1 ≤ n)]
      norm_num
    rw [hcast, div_self hne1]
    norm_num

/-- Witness for C6 at `p1 = (1,0)`, `p2 = (-1,0)`, `n = 2`. -/
theorem antipodal_case_linear_witness :
    |(1 : ℝ) + -1| ≤ atol ∧ |(0 : ℝ) + 0| ≤ atol ∧
    (geodesicArcP ((1 : ℝ), (0 : ℝ)) ((-1 : ℝ), (0 : ℝ)) 2).head? = some (1, 0, 0) ∧
    (geodesicArcP ((1 : ℝ), (0 : ℝ)) ((-1 : ℝ), (0 : ℝ)) 2).getLast? = some (-1, 0, 0) := by
  have h1 : |(1 : ℝ) + -1| ≤ atol := by rw [atol]; norm_num
  have h2 : |(0 : ℝ) + 0| ≤ atol := by rw [atol]; norm_num
  have main := antipodal_case_linear ((1 : ℝ), (0 : ℝ)) ((-1 : ℝ), (0 : ℝ)) 2 h1 h2 (le_refl 2)
  exact ⟨h1, h2, main.2.2.1, main.2.2.2⟩

theorem perp_dot_chord (p1 p2 : Point2) :
    ((p1.1 - p2.1) / 2) * (perp p1 p2).1 + ((p1.2 - p2.2) / 2) * (perp p1 p2).2 = 0 := by
  unfold perp perpRaw
  have h : ((p1.1 - p2.1) / 2) * (-(p2.2 - p1.2)) + ((p1.2 - p2.2) / 2) * (p2.1 - p1.1) = 0 := by
    ring
  calc ((p1.1 - p2.1) / 2) * (-(p2.2 - p1.2) / npnorm (-(p2.2 - p1.2), p2.1 - p1.1))
        + ((p1.2 - p2.2) / 2) * ((p2.1 - p1.1) / npnorm (-(p2.2 - p1.2), p2.1 - p1.1))
      = (((p1.1 - p2.1) / 2) * (-(p2.2 - p1.2)) + ((p1.2 - p2.2) / 2) * (p2.1 - p1.1))
          / npnorm (-(p2.2 - p1.2), p2.1 - p1.1) := by ring
    _ = 0 := by rw [h, zero_div]

theorem radius_sq_eq (p1 p2 : Point2) :
    radius p1 p2 ^ 2 =
      ((p1.1 - p2.1) / 2) ^ 2 + ((p1.2 - p2.2) / 2) ^ 2
        + tParam p1 p2 ^ 2 * ((perp p1 p2).1 ^ 2 + (perp p1 p2).2 ^ 2) := by
  rw [radius, npnorm_sq]
  unfold center midpt
  linear_combination (-2 * tParam p1 p2) * perp_dot_chord p1 p2

theorem dist_p2_center_sq (p1 p2 : Point2) :
    (p2.1 - (center p1 p2).1) ^ 2 + (p2.2 - (center p1 p2).2) ^ 2 = radius p1 p2 ^ 2 := by
  rw [radius_sq_eq]
  unfold center midpt
  linear_combination (2 * tParam p1 p2) * perp_dot_chord p1 p2

theorem radius_pos {p1 p2 : Point2} (hne : p1 ≠ p2) : 0 < radius p1 p2 := by
  rcases lt_or_eq_of_le (npnorm_nonneg (p1.1 - (center p1 p2).1, p1.2 - (center p1 p2).2)) with h | h
  · exact h
  · exfalso
    have hr : radius p1 p2 = 0 := h.symm
    have hsq := radius_sq_eq p1 p2
    rw [hr] at hsq
    have h1 : p1.1 = p2.1 := by
      nlinarith [sq_nonneg ((p1.1 - p2.1) / 2), sq_nonneg ((p1.2 - p2.2) / 2),
        sq_nonneg (tParam p1 p2 * (perp p1 p2).1), sq_nonneg (tParam p1 p2 * (perp p1 p2).2)]
    have h2 : p1.2 = p2.2 := by
      nlinarith [sq_nonneg ((p1.1 - p2.1) / 2), sq_nonneg ((p1.2 - p2.2) / 2),
        sq_nonneg (tParam p1 p2 * (perp p1 p2).1), sq_nonneg (tParam p1 p2 * (perp p1 p2).2)]
    exact hne (Prod.ext h1 h2)

theorem orthogonality (p1 p2 : Point2) (h : rhsCoeff p1 p2 ≠ 0) :
    radius p1 p2 ^ 2 = ((center p1 p2).1 ^ 2 + (center p1 p2).2 ^ 2) - 1 := by
  have ht : tParam p1 p2 * rhsCoeff p1 p2 = lhsVal p1 p2 := div_mul_cancel₀ _ h
  unfold rhsCoeff at ht
  unfold lhsVal dvec midpt at ht
  rw [radius, npnorm_sq]
  unfold center midpt
  linear_combination -ht

theorem rhsCoeff_ne_of_not_lt {p1 p2 : Point2} (hnd : ¬|rhsCoeff p1 p2| < degTol) :
    rhsCoeff p1 p2 ≠ 0 := by
  intro h
  apply hnd
  rw [h, degTol]
  norm_num

/-- C5: when both points lie exactly on the unit circle, are distinct and
non-antipodal, the general-case construction produces a center of norm
greater than 1 and a radius with `radius² = ‖center‖² − 1`: the constructed
circle is orthogonal to the unit circle. -/
theorem orthogonal_circle_property (p1 p2 : Point2)
    (hc1 : p1.1 ^ 2 + p1.2 ^ 2 = 1) (hc2 : p2.1 ^ 2 + p2.2 ^ 2 = 1)
    (hne : p1 ≠ p2) (hna : ¬allcloseNeg p1 p2) (hnd : ¬|rhsCoeff p1 p2| < degTol) :
    1 < npnorm (center p1 p2) ∧
    radius p1 p2 ^ 2 = npnorm (center p1 p2) ^ 2 - 1 := by
  have hrhs : rhsCoeff p1 p2 ≠ 0 := rhsCoeff_ne_of_not_lt hnd
  have horth := orthogonality p1 p2 hrhs
  have hrad := radius_pos hne
  constructor
  · rw [npnorm, Real.lt_sqrt (by norm_num)]
    nlinarith
  · rw [npnorm_sq]
    exact horth

theorem sqrt_two_mul_self : Real.sqrt 2 * Real.sqrt 2 = 2 :=
  Real.mul_self_sqrt (by norm_num)

theorem sqrt_two_pos : (0 : ℝ) < Real.sqrt 2 := Real.sqrt_pos.mpr (by norm_num)

theorem one_le_sqrt_two : (1 : ℝ) ≤ Real.sqrt 2 := by
  rw [show (1 : ℝ) = Real.sqrt 1 by rw [Real.sqrt_one]]
  exact Real.sqrt_le_sqrt (by norm_num)

theorem not_allclose_1 : ¬allcloseNeg ((1 : ℝ), (0 : ℝ)) ((0 : ℝ), (1 : ℝ)) := by
  intro h
  have h' := h.1
  rw [atol, rtol] at h'
  norm_num at h'

theorem not_allclose_2 : ¬allcloseNeg ((0 : ℝ), (1 : ℝ)) ((1 : ℝ), (0 : ℝ)) := by
  intro h
  have h' := h.1
  rw [atol, rtol] at h'
  norm_num at h'

theorem perpRaw_eval1 : perpRaw ((1 : ℝ), (0 : ℝ)) ((0 : ℝ), (1 : ℝ)) = (-1, -1) := by
  unfold perpRaw
  norm_num

theorem perpRaw_eval2 : perpRaw ((0 : ℝ), (1 : ℝ)) ((1 : ℝ), (0 : ℝ)) = (1, 1) := by
  unfold perpRaw
  norm_num

theorem npnorm_neg_one_neg_one : npnorm ((-1 : ℝ), (-1 : ℝ)) = Real.sqrt 2 := by
  unfold npnorm
  norm_num

theorem npnorm_one_one : npnorm ((1 : ℝ), (1 : ℝ)) = Real.sqrt 2 := by
  unfold npnorm
  norm_num

theorem perp_eval1 :
    perp ((1 : ℝ), (0 : ℝ)) ((0 : ℝ), (1 : ℝ)) = (-(1 / Real.sqrt 2), -(1 / Real.sqrt 2)) := by
  unfold perp
  rw [perpRaw_eval1, npnorm_neg_one_neg_one]
  exact Prod.ext (by rw [neg_div]) (by rw [neg_div])

theorem perp_eval2 :
    perp ((0 : ℝ), (1 : ℝ)) ((1 : ℝ), (0 : ℝ)) = (1 / Real.sqrt 2, 1 / Real.sqrt 2) := by
  unfold perp
  rw [perpRaw_eval2, npnorm_one_one]

theorem rhsCoeff_eval1 : rhsCoeff ((1 : ℝ), (0 : ℝ)) ((0 : ℝ), (1 : ℝ)) = -Real.sqrt 2 := by
  unfold rhsCoeff
  rw [perp_eval1]
  have h : (2 : ℝ) / Real.sqrt 2 = Real.sqrt 2 := by
    rw [div_eq_iff sqrt_two_pos.ne']
    exact sqrt_two_mul_self.symm
  calc (2 : ℝ) * (1 * -(1 / Real.sqrt 2) + 0 * -(1 / Real.sqrt 2))
      = -(2 / Real.sqrt 2) := by ring
    _ = -Real.sqrt 2 := by rw [h]

theorem rhsCoeff_eval2 : rhsCoeff ((0 : ℝ), (1 : ℝ)) ((1 : ℝ), (0 : ℝ)) = Real.sqrt 2 := by
  unfold rhsCoeff
  rw [perp_eval2]
  have h : (2 : ℝ) / Real.sqrt 2 = Real.sqrt 2 := by
    rw [div_eq_iff sqrt_two_pos.ne']
    exact sqrt_two_mul_self.symm
  calc (2 : ℝ) * (0 * (1 / Real.sqrt 2) + 1 * (1 / Real.sqrt 2))
      = 2 / Real.sqrt 2 := by ring
    _ = Real.sqrt 2 := by rw [h]

theorem not_deg_1 : ¬|rhsCoeff ((1 : ℝ), (0 : ℝ)) ((0 : ℝ), (1 : ℝ))| < degTol := by
  rw [rhsCoeff_eval1, abs_neg, abs_of_nonneg (Real.sqrt_nonneg 2), degTol]
  push_neg
  calc (1 : ℝ) / 10 ^ 10 ≤ 1 := by norm_num
    _ ≤ Real.sqrt 2 := one_le_sqrt_two

theorem not_deg_2 : ¬|rhsCoeff ((0 : ℝ), (1 : ℝ)) ((1 : ℝ), (0 : ℝ))| < degTol := by
  rw [rhsCoeff_eval2, abs_of_nonneg (Real.sqrt_nonneg 2), degTol]
  push_neg
  calc (1 : ℝ) / 10 ^ 10 ≤ 1 := by norm_num
    _ ≤ Real.sqrt 2 := one_le_sqrt_two

theorem tParam_eval1 : tParam ((1 : ℝ), (0 : ℝ)) ((0 : ℝ), (1 : ℝ)) = -(1 / Real.sqrt 2) := by
  unfold tParam
  have hl : lhsVal ((1 : ℝ), (0 : ℝ)) ((0 : ℝ), (1 : ℝ)) = 1 := by
    unfold lhsVal dvec midpt
    norm_num
  rw [hl, rhsCoeff_eval1, div_neg]

theorem tParam_eval2 : tParam ((0 : ℝ), (1 : ℝ)) ((1 : ℝ), (0 : ℝ)) = 1 / Real.sqrt 2 := by
  unfold tParam
  have hl : lhsVal ((0 : ℝ), (1 : ℝ)) ((1 : ℝ), (0 : ℝ)) = 1 := by
    unfold lhsVal dvec midpt
    norm_num
  rw [hl, rhsCoeff_eval2]

theorem inv_sqrt_two_sq : (1 / Real.sqrt 2) * (1 / Real.sqrt 2) = 1 / 2 := by
  rw [div_mul_div_comm, one_mul, sqrt_two_mul_self]

theorem center_eval1 : center ((1 : ℝ), (0 : ℝ)) ((0 : ℝ), (1 : ℝ)) = (1, 1) := by
  unfold center midpt
  rw [tParam_eval1, perp_eval1]
  exact Prod.ext (by linear_combination inv_sqrt_two_sq) (by linear_combination inv_sqrt_two_sq)

theorem center_eval2 : center ((0 : ℝ), (1 : ℝ)) ((1 : ℝ), (0 : ℝ)) = (1, 1) := by
  unfold center midpt
  rw [tParam_eval2, perp_eval2]
  exact Prod.ext (by linear_combination inv_sqrt_two_sq) (by linear_combination inv_sqrt_two_sq)

theorem radius_eval1 : radius ((1 : ℝ), (0 : ℝ)) ((0 : ℝ), (1 : ℝ)) = 1 := by
  unfold radius
  rw [center_eval1]
  unfold npnorm
  norm_num

theorem radius_eval2 : radius ((0 : ℝ), (1 : ℝ)) ((1 : ℝ), (0 : ℝ)) = 1 := by
  unfold radius
  rw [center_eval2]
  unfold npnorm
  norm_num

theorem angle1_eval1 : angle1 ((1 : ℝ), (0 : ℝ)) ((0 : ℝ), (1 : ℝ)) = -(π / 2) := by
  unfold angle1 atan2
  rw [center_eval1]
  have h : (⟨(1 : ℝ) - 1, (0 : ℝ) - 1⟩ : ℂ) = -Complex.I := by
    apply Complex.ext <;> norm_num
  rw [h, Complex.arg_neg_I]

theorem angle2_eval1 : angle2 ((1 : ℝ), (0 : ℝ)) ((0 : ℝ), (1 : ℝ)) = π := by
  unfold angle2 atan2
  rw [center_eval1]
  have h : (⟨(0 : ℝ) - 1, (1 : ℝ) - 1⟩ : ℂ) = -1 := by
    apply Complex.ext <;> norm_num
  rw [h, Complex.arg_neg_one]

theorem angle1_eval2 : angle1 ((0 : ℝ), (1 : ℝ)) ((1 : ℝ), (0 : ℝ)) = π := by
  unfold angle1 atan2
  rw [center_eval2]
  have h : (⟨(0 : ℝ) - 1, (1 : ℝ) - 1⟩ : ℂ) = -1 := by
    apply Complex.ext <;> norm_num
  rw [h, Complex.arg_neg_one]

theorem angle2_eval2 : angle2 ((0 : ℝ), (1 : ℝ)) ((1 : ℝ), (0 : ℝ)) = -(π / 2) := by
  unfold angle2 atan2
  rw [center_eval2]
  have h : (⟨(1 : ℝ) - 1, (0 : ℝ) - 1⟩ : ℂ) = -Complex.I := by
    apply Complex.ext <;> norm_num
  rw [h, Complex.arg_neg_I]

theorem orderedAngles_eval1 :
    orderedAngles ((1 : ℝ), (0 : ℝ)) ((0 : ℝ), (1 : ℝ)) = (-(π / 2), π) := by
  unfold orderedAngles
  rw [angle1_eval1, angle2_eval1, if_neg (by push_neg; linarith [Real.pi_pos])]

theorem orderedAngles_eval2 :
    orderedAngles ((0 : ℝ), (1 : ℝ)) ((1 : ℝ), (0 : ℝ)) = (-(π / 2), π) := by
  unfold orderedAngles
  rw [angle1_eval2, angle2_eval2, if_pos (by linarith [Real.pi_pos])]

theorem arcPoints_two_eval (p1 p2 : Point2)
    (hc : center p1 p2 = (1, 1)) (hr : radius p1 p2 = 1)
    (ho : orderedAngles p1 p2 = (-(π / 2), π)) :
    arcPoints p1 p2 2 = [((0 : ℝ), (1 : ℝ), (0 : ℝ)), ((1 : ℝ), (0 : ℝ), (0 : ℝ))] := by
  have hm : midAngle p1 p2 = π / 4 := by
    unfold midAngle
    rw [ho]
    ring
  have hp : pointAt p1 p2 (π / 4) = (1 + Real.sqrt 2 / 2, 1 + Real.sqrt 2 / 2) := by
    unfold pointAt
    rw [hc, hr, Real.cos_pi_div_four, Real.sin_pi_div_four]
    norm_num
  have hgt : 1 < npnorm (pointAt p1 p2 (midAngle p1 p2)) := by
    rw [hm, hp]
    unfold npnorm
    rw [Real.lt_sqrt (by norm_num)]
    nlinarith [Real.sqrt_nonneg 2]
  have hf : finalAngles p1 p2 = (-π, -(π / 2)) := by
    unfold finalAngles
    rw [if_pos hgt, ho]
    exact Prod.ext (by ring) (by norm_num)
  have hpA : pointAt p1 p2 (-π) = (0, 1) := by
    unfold pointAt
    rw [hc, hr, Real.cos_neg, Real.sin_neg, Real.cos_pi, Real.sin_pi]
    norm_num
  have hpB : pointAt p1 p2 (-(π / 2)) = (1, 0) := by
    unfold pointAt
    rw [hc, hr, Real.cos_neg, Real.sin_neg, Real.cos_pi_div_two, Real.sin_pi_div_two]
    norm_num
  have hl : linspace (-π) (-(π / 2)) 2 = [-π, -(π / 2)] := by
    unfold linspace
    rw [show List.range 2 = [0, 1] from rfl]
    simp only [List.map_cons, List.map_nil, Nat.cast_zero, Nat.cast_one]
    have e0 : -π + (0 : ℝ) * ((-(π / 2) - -π) / ((2 : ℕ) - 1)) = -π := by
      norm_num
    have e1 : -π + (1 : ℝ) * ((-(π / 2) - -π) / ((2 : ℕ) - 1)) = -(π / 2) := by
      norm_num
    rw [e0, e1]
  unfold arcPoints
  rw [hf]
  simp only
  rw [hl]
  simp only [List.map_cons, List.map_nil]
  rw [hpA, hpB]

theorem geodesicArcP_eval1 :
    geodesicArcP ((1 : ℝ), (0 : ℝ)) ((0 : ℝ), (1 : ℝ)) 2 =
      [((0 : ℝ), (1 : ℝ), (0 : ℝ)), ((1 : ℝ), (0 : ℝ), (0 : ℝ))] := by
  unfold geodesicArcP
  rw [if_neg not_allclose_1, if_neg not_deg_1]
  exact arcPoints_two_eval _ _ center_eval1 radius_eval1 orderedAngles_eval1

theorem geodesicArcP_eval2 :
    geodesicArcP ((0 : ℝ), (1 : ℝ)) ((1 : ℝ), (0 : ℝ)) 2 =
      [((0 : ℝ), (1 : ℝ), (0 : ℝ)), ((1 : ℝ), (0 : ℝ), (0 : ℝ))] := by
  unfold geodesicArcP
  rw [if_neg not_allclose_2, if_neg not_deg_2]
  exact arcPoints_two_eval _ _ center_eval2 radius_eval2 orderedAngles_eval2

theorem linspace_getElem (a b : ℝ) (n k : ℕ) (hk : k < n) :
    (linspace a b n)[k]? = some (a + (k : ℝ) * ((b - a) / ((n : ℝ) - 1))) := by
  unfold linspace
  rw [List.getElem?_map, List.getElem?_range hk, Option.map_some']

theorem diameterPoints_head (p1 p2 : Point2) (n : ℕ) (hn : 0 < n) :
    (diameterPoints p1 p2 n).head? = some (p1.1, p1.2, 0) := by
  rw [List.head?_eq_getElem?, diameterPoints_getElem _ _ _ 0 hn]
  norm_num

theorem diameterPoints_last (p1 p2 : Point2) (n : ℕ) (hn : 2 ≤ n) :
    (diameterPoints p1 p2 n).getLast? = some (p2.1, p2.2, 0) := by
  have hne1 : (n : ℝ) - 1 ≠ 0 := by
    have h : (2 : ℝ) ≤ (n : ℝ) := by exact_mod_cast hn
    intro h0
    nlinarith
  rw [List.getLast?_eq_getElem?, length_diameterPoints,
    diameterPoints_getElem _ _ _ (n - 1) (by omega)]
  have hcast : ((n - 1 : ℕ) : ℝ) = (n : ℝ) - 1 := by
    rw [Nat.cast_sub (by omega : 1 ≤ n)]
    norm_num
  rw [hcast, div_self hne1]
  norm_num

theorem arcPoints_head (p1 p2 : Point2) (n : ℕ) (hn : 0 < n) :
    (arcPoints p1 p2 n).head? =
      some ((pointAt p1 p2 (finalAngles p1 p2).1).1,
        (pointAt p1 p2 (finalAngles p1 p2).1).2, 0) := by
  unfold arcPoints
  rw [List.head?_eq_getElem?, List.getElem?_map, linspace_getElem _ _ _ 0 hn,
    Option.map_some']
  norm_num

theorem arcPoints_last (p1 p2 : Point2) (n : ℕ) (hn : 2 ≤ n) :
    (arcPoints p1 p2 n).getLast? =
      some ((pointAt p1 p2 (finalAngles p1 p2).2).1,
        (pointAt p1 p2 (finalAngles p1 p2).2).2, 0) := by
  have hne1 : (n : ℝ) - 1 ≠ 0 := by
    have h : (2 : ℝ) ≤ (n : ℝ) := by exact_mod_cast hn
    intro h0
    nlinarith
  unfold arcPoints
  rw [List.getLast?_eq_getElem?, List.length_map, length_linspace,
    List.getElem?_map, linspace_getElem _ _ _ (n - 1) (by omega), Option.map_some']
  have hcast : ((n - 1 : ℕ) : ℝ) = (n : ℝ) - 1 := by
    rw [Nat.cast_sub (by omega : 1 ≤ n)]
    norm_num
  have heq : (finalAngles p1 p2).1 + ((n - 1 : ℕ) : ℝ)
      * (((finalAngles p1 p2).2 - (finalAngles p1 p2).1) / ((n : ℝ) - 1))
      = (finalAngles p1 p2).2 := by
    rw [hcast]
    field_simp
  rw [heq]

theorem abs_complex_p1 (p1 p2 : Point2) :
    Complex.abs ⟨p1.1 - (center p1 p2).1, p1.2 - (center p1 p2).2⟩ = radius p1 p2 := by
  rw [Complex.abs_apply, Complex.normSq_mk]
  unfold radius npnorm
  ring_nf

theorem radius_nonneg (p1 p2 : Point2) : 0 ≤ radius p1 p2 := Real.sqrt_nonneg _

theorem abs_complex_p2 (p1 p2 : Point2) :
    Complex.abs ⟨p2.1 - (center p1 p2).1, p2.2 - (center p1 p2).2⟩ = radius p1 p2 := by
  rw [Complex.abs_apply, Complex.normSq_mk]
  rw [show (p2.1 - (center p1 p2).1) * (p2.1 - (center p1 p2).1)
      + (p2.2 - (center p1 p2).2) * (p2.2 - (center p1 p2).2) = radius p1 p2 ^ 2 from by
    linear_combination dist_p2_center_sq p1 p2]
  exact Real.sqrt_sq (radius_nonneg p1 p2)

theorem pointAt_angle1 {p1 p2 : Point2} (hne : p1 ≠ p2) :
    pointAt p1 p2 (angle1 p1 p2) = p1 := by
  have hrpos := radius_pos hne
  have hz : (⟨p1.1 - (center p1 p2).1, p1.2 - (center p1 p2).2⟩ : ℂ) ≠ 0 := by
    intro h
    have habs := abs_complex_p1 p1 p2
    rw [h] at habs
    simp at habs
    exact hrpos.ne' habs.symm
  unfold pointAt angle1 atan2
  rw [Complex.cos_arg hz, Complex.sin_arg, abs_complex_p1]
  refine Prod.ext ?_ ?_
  · show (center p1 p2).1 + radius p1 p2
        * ((⟨p1.1 - (center p1 p2).1, p1.2 - (center p1 p2).2⟩ : ℂ).re / radius p1 p2) = p1.1
    rw [show (⟨p1.1 - (center p1 p2).1, p1.2 - (center p1 p2).2⟩ : ℂ).re
        = p1.1 - (center p1 p2).1 from rfl]
    field_simp
  · show (center p1 p2).2 + radius p1 p2
        * ((⟨p1.1 - (center p1 p2).1, p1.2 - (center p1 p2).2⟩ : ℂ).im / radius p1 p2) = p1.2
    rw [show (⟨p1.1 - (center p1 p2).1, p1.2 - (center p1 p2).2⟩ : ℂ).im
        = p1.2 - (center p1 p2).2 from rfl]
    field_simp

theorem pointAt_angle2 {p1 p2 : Point2} (hne : p1 ≠ p2) :
    pointAt p1 p2 (angle2 p1 p2) = p2 := by
  have hrpos := radius_pos hne
  have hz : (⟨p2.1 - (center p1 p2).1, p2.2 - (center p1 p2).2⟩ : ℂ) ≠ 0 := by
    intro h
    have habs := abs_complex_p2 p1 p2
    rw [h] at habs
    simp at habs
    exact hrpos.ne' habs.symm
  unfold pointAt angle2 atan2
  rw [Complex.cos_arg hz, Complex.sin_arg, abs_complex_p2]
  refine Prod.ext ?_ ?_
  · show (center p1 p2).1 + radius p1 p2
        * ((⟨p2.1 - (center p1 p2).1, p2.2 - (center p1 p2).2⟩ : ℂ).re / radius p1 p2) = p2.1
    rw [show (⟨p2.1 - (center p1 p2).1, p2.2 - (center p1 p2).2⟩ : ℂ).re
        = p2.1 - (center p1 p2).1 from rfl]
    field_simp
  · show (center p1 p2).2 + radius p1 p2
        * ((⟨p2.1 - (center p1 p2).1, p2.2 - (center p1 p2).2⟩ : ℂ).im / radius p1 p2) = p2.2
    rw [show (⟨p2.1 - (center p1 p2).1, p2.2 - (center p1 p2).2⟩ : ℂ).im
        = p2.2 - (center p1 p2).2 from rfl]
    field_simp

theorem pointAt_sub_two_pi (p1 p2 : Point2) (a : ℝ) :
    pointAt p1 p2 (a - 2 * π) = pointAt p1 p2 a := by
  unfold pointAt
  rw [Real.cos_sub_two_pi, Real.sin_sub_two_pi]

theorem finalAngles_cases (p1 p2 : Point2) :
    finalAngles p1 p2 = (angle1 p1 p2, angle2 p1 p2) ∨
    finalAngles p1 p2 = (angle2 p1 p2, angle1 p1 p2) ∨
    finalAngles p1 p2 = (angle2 p1 p2 - 2 * π, angle1 p1 p2) ∨
    finalAngles p1 p2 = (angle1 p1 p2 - 2 * π, angle2 p1 p2) := by
  unfold finalAngles midAngle orderedAngles
  split_ifs <;>
    first
      | exact Or.inl rfl
      | exact Or.inr (Or.inl rfl)
      | exact Or.inr (Or.inr (Or.inl rfl))
      | exact Or.inr (Or.inr (Or.inr rfl))

/-- C1 counterexample: for `p1 = (1,0)`, `p2 = (0,1)`, `num_points = 2`, the
returned sequence begins at `(0,1,0)` — the caller's SECOND argument — which
lies at distance `√2 > 1/1000` from the caller's first argument `p1 = (1,0)`,
so the path does not begin within any reasonable tolerance of `p1`. -/
theorem geodesic_arc_startpoint_counterexample :
    (geodesicArcP ((1 : ℝ), (0 : ℝ)) ((0 : ℝ), (1 : ℝ)) 2).head? =
      some ((0 : ℝ), (1 : ℝ), (0 : ℝ)) ∧
    (1 : ℝ) / 1000 < Real.sqrt (((0 : ℝ) - 1) ^ 2 + ((1 : ℝ) - 0) ^ 2) := by
  constructor
  · rw [geodesicArcP_eval1]
    rfl
  · rw [show ((0 : ℝ) - 1) ^ 2 + ((1 : ℝ) - 0) ^ 2 = 2 by norm_num]
    calc (1 : ℝ) / 1000 < 1 := by norm_num
      _ ≤ Real.sqrt 2 := one_le_sqrt_two

/-- C1 (amended): for distinct 2D inputs and `num_points ≥ 2`, the returned
sequence begins at one of the two caller endpoints and ends at the other —
but which endpoint comes first depends on the arc-direction selection, so
the path is NOT guaranteed to begin near the caller's first argument. -/
theorem geodesic_arc_endpoint_pairing (p1 p2 : Point2) (n : ℕ)
    (hne : p1 ≠ p2) (hn : 2 ≤ n) :
    ((geodesicArcP p1 p2 n).head? = some (p1.1, p1.2, 0) ∧
      (geodesicArcP p1 p2 n).getLast? = some (p2.1, p2.2, 0)) ∨
    ((geodesicArcP p1 p2 n).head? = some (p2.1, p2.2, 0) ∧
      (geodesicArcP p1 p2 n).getLast? = some (p1.1, p1.2, 0)) := by
  have hn0 : 0 < n := by omega
  unfold geodesicArcP
  split_ifs with h1 h2
  · exact Or.inl ⟨diameterPoints_head p1 p2 n hn0, diameterPoints_last p1 p2 n hn⟩
  · exact Or.inl ⟨diameterPoints_head p1 p2 n hn0, diameterPoints_last p1 p2 n hn⟩
  · have hhead := arcPoints_head p1 p2 n hn0
    have hlast := arcPoints_last p1 p2 n hn
    rcases finalAngles_cases p1 p2 with hf | hf | hf | hf <;>
      rw [hf] at hhead hlast <;> dsimp only at hhead hlast
    · rw [pointAt_angle1 hne] at hhead
      rw [pointAt_angle2 hne] at hlast
      exact Or.inl ⟨hhead, hlast⟩
    · rw [pointAt_angle2 hne] at hhead
      rw [pointAt_angle1 hne] at hlast
      exact Or.inr ⟨hhead, hlast⟩
    · rw [pointAt_sub_two_pi, pointAt_angle2 hne] at hhead
      rw [pointAt_angle1 hne] at hlast
      exact Or.inr ⟨hhead, hlast⟩
    · rw [pointAt_sub_two_pi, pointAt_angle1 hne] at hhead
      rw [pointAt_angle2 hne] at hlast
      exact Or.inl ⟨hhead, hlast⟩

/-- Witness for the amended C1 at `p1 = (1,0)`, `p2 = (0,1)`, `n = 2`. -/
theorem geodesic_arc_endpoint_pairing_witness :
    (((1 : ℝ), (0 : ℝ)) : Point2) ≠ ((0 : ℝ), (1 : ℝ)) ∧
    (((geodesicArcP ((1 : ℝ), (0 : ℝ)) ((0 : ℝ), (1 : ℝ)) 2).head? = some (1, 0, 0) ∧
      (geodesicArcP ((1 : ℝ), (0 : ℝ)) ((0 : ℝ), (1 : ℝ)) 2).getLast? = some (0, 1, 0)) ∨
     ((geodesicArcP ((1 : ℝ), (0 : ℝ)) ((0 : ℝ), (1 : ℝ)) 2).head? = some (0, 1, 0) ∧
      (geodesicArcP ((1 : ℝ), (0 : ℝ)) ((0 : ℝ), (1 : ℝ)) 2).getLast? = some (1, 0, 0))) := by
  have hne : (((1 : ℝ), (0 : ℝ)) : Point2) ≠ ((0 : ℝ), (1 : ℝ)) := by
    intro h
    have h' := congrArg Prod.fst h
    norm_num at h'
  exact ⟨hne, geodesic_arc_endpoint_pairing _ _ 2 hne (le_refl 2)⟩

theorem lhsVal_swap (p1 p2 : Point2) : lhsVal p2 p1 = lhsVal p1 p2 := by
  unfold lhsVal dvec midpt
  ring

theorem midpt_swap (p1 p2 : Point2) : midpt p2 p1 = midpt p1 p2 := by
  unfold midpt
  exact Prod.ext (by ring) (by ring)

theorem npnorm_perpRaw_swap (p1 p2 : Point2) :
    npnorm (perpRaw p2 p1) = npnorm (perpRaw p1 p2) := by
  unfold npnorm perpRaw
  rw [show (-(p1.2 - p2.2)) ^ 2 + (p1.1 - p2.1) ^ 2
      = (-(p2.2 - p1.2)) ^ 2 + (p2.1 - p1.1) ^ 2 by ring]

theorem perp_swap (p1 p2 : Point2) :
    perp p2 p1 = (-(perp p1 p2).1, -(perp p1 p2).2) := by
  unfold perp
  rw [npnorm_perpRaw_swap]
  refine Prod.ext ?_ ?_
  · show (perpRaw p2 p1).1 / npnorm (perpRaw p1 p2)
        = -((perpRaw p1 p2).1 / npnorm (perpRaw p1 p2))
    rw [show (perpRaw p2 p1).1 = -(perpRaw p1 p2).1 from by unfold perpRaw; ring, neg_div]
  · show (perpRaw p2 p1).2 / npnorm (perpRaw p1 p2)
        = -((perpRaw p1 p2).2 / npnorm (perpRaw p1 p2))
    rw [show (perpRaw p2 p1).2 = -(perpRaw p1 p2).2 from by unfold perpRaw; ring, neg_div]

theorem rhsCoeff_swap (p1 p2 : Point2) : rhsCoeff p2 p1 = -rhsCoeff p1 p2 := by
  unfold rhsCoeff
  rw [perp_swap]
  linear_combination 4 * perp_dot_chord p1 p2

theorem tParam_swap (p1 p2 : Point2) : tParam p2 p1 = -tParam p1 p2 := by
  unfold tParam
  rw [lhsVal_swap, rhsCoeff_swap, div_neg]

theorem center_swap (p1 p2 : Point2) : center p2 p1 = center p1 p2 := by
  unfold center
  rw [midpt_swap, tParam_swap, perp_swap]
  exact Prod.ext (by ring) (by ring)

theorem radius_swap (p1 p2 : Point2) : radius p2 p1 = radius p1 p2 := by
  unfold radius
  rw [center_swap]
  unfold npnorm
  rw [show (p2.1 - (center p1 p2).1) ^ 2 + (p2.2 - (center p1 p2).2) ^ 2
      = radius p1 p2 ^ 2 from by linear_combination dist_p2_center_sq p1 p2]
  exact Real.sqrt_sq (radius_nonneg p1 p2)

theorem angle1_swap (p1 p2 : Point2) : angle1 p2 p1 = angle2 p1 p2 := by
  unfold angle1 angle2
  rw [center_swap]

theorem angle2_swap (p1 p2 : Point2) : angle2 p2 p1 = angle1 p1 p2 := by
  unfold angle1 angle2
  rw [center_swap]

theorem orderedAngles_swap (p1 p2 : Point2) :
    orderedAngles p2 p1 = orderedAngles p1 p2 := by
  unfold orderedAngles
  rw [angle1_swap, angle2_swap]
  rcases lt_trichotomy (angle1 p1 p2) (angle2 p1 p2) with h | h | h
  · rw [if_pos h, if_neg (not_lt.mpr h.le)]
  · rw [if_neg (by rw [h]; exact lt_irrefl _), if_neg (by rw [h]; exact lt_irrefl _), h]
  · rw [if_neg (not_lt.mpr h.le), if_pos h]

theorem pointAt_swap (p1 p2 : Point2) (a : ℝ) : pointAt p2 p1 a = pointAt p1 p2 a := by
  unfold pointAt
  rw [center_swap, radius_swap]

theorem midAngle_swap (p1 p2 : Point2) : midAngle p2 p1 = midAngle p1 p2 := by
  unfold midAngle
  rw [orderedAngles_swap]

theorem finalAngles_swap (p1 p2 : Point2) : finalAngles p2 p1 = finalAngles p1 p2 := by
  unfold finalAngles
  simp only [pointAt_swap, midAngle_swap, orderedAngles_swap]

theorem arcPoints_swap (p1 p2 : Point2) (n : ℕ) : arcPoints p2 p1 n = arcPoints p1 p2 n := by
  unfold arcPoints
  simp only [finalAngles_swap, pointAt_swap]

/-- C2 counterexample: for `p1 = (1,0)`, `p2 = (0,1)`, `num_points = 2`, the
two calls `geodesic_arc(p1, p2)` and `geodesic_arc(p2, p1)` return the SAME
sequence `[(0,1,0), (1,0,0)]`, so reversing the second does not reproduce
the first. -/
theorem geodesic_arc_reverse_symmetry_counterexample :
    (geodesicArcP ((0 : ℝ), (1 : ℝ)) ((1 : ℝ), (0 : ℝ)) 2).reverse ≠
      geodesicArcP ((1 : ℝ), (0 : ℝ)) ((0 : ℝ), (1 : ℝ)) 2 := by
  rw [geodesicArcP_eval1, geodesicArcP_eval2]
  intro h
  have h' := congrArg List.head? h
  simp only [List.reverse_cons, List.reverse_nil, List.nil_append, List.singleton_append,
    List.head?_cons] at h'
  have h'' := congrArg (fun o : Option Point3 => (o.getD (0, 0, 0)).1) h'
  norm_num at h''

/-- C2 (amended): in the general (non-antipodal, non-degenerate) case,
`geodesic_arc(p2, p1)` returns exactly the same point sequence as
`geodesic_arc(p1, p2)` — the same geodesic with the same orientation — so
it is the UNREVERSED second call that coincides with the first. -/
theorem geodesic_arc_swap_eq (p1 p2 : Point2) (n : ℕ)
    (h1 : ¬allcloseNeg p1 p2) (h1' : ¬allcloseNeg p2 p1)
    (h2 : ¬|rhsCoeff p1 p2| < degTol) :
    geodesicArcP p2 p1 n = geodesicArcP p1 p2 n := by
  have h2' : ¬|rhsCoeff p2 p1| < degTol := by
    rw [rhsCoeff_swap, abs_neg]
    exact h2
  unfold geodesicArcP
  rw [if_neg h1, if_neg h1', if_neg h2, if_neg h2']
  exact arcPoints_swap p1 p2 n

/-- Witness for the amended C2 at `p1 = (1,0)`, `p2 = (0,1)`, `n = 2`. -/
theorem geodesic_arc_swap_eq_witness :
    ¬allcloseNeg ((1 : ℝ), (0 : ℝ)) ((0 : ℝ), (1 : ℝ)) ∧
    ¬allcloseNeg ((0 : ℝ), (1 : ℝ)) ((1 : ℝ), (0 : ℝ)) ∧
    ¬|rhsCoeff ((1 : ℝ), (0 : ℝ)) ((0 : ℝ), (1 : ℝ))| < degTol ∧
    geodesicArcP ((0 : ℝ), (1 : ℝ)) ((1 : ℝ), (0 : ℝ)) 2 =
      geodesicArcP ((1 : ℝ), (0 : ℝ)) ((0 : ℝ), (1 : ℝ)) 2 :=
  ⟨not_allclose_1, not_allclose_2, not_deg_1,
    geodesic_arc_swap_eq _ _ 2 not_allclose_1 not_allclose_2 not_deg_1⟩

/-- Witness for C5 at `p1 = (1,0)`, `p2 = (0,1)`. -/
theorem orthogonal_circle_property_witness :
    ((1 : ℝ) ^ 2 + (0 : ℝ) ^ 2 = 1) ∧ ((0 : ℝ) ^ 2 + (1 : ℝ) ^ 2 = 1) ∧
    (((1 : ℝ), (0 : ℝ)) : Point2) ≠ ((0 : ℝ), (1 : ℝ)) ∧
    (1 < npnorm (center ((1 : ℝ), (0 : ℝ)) ((0 : ℝ), (1 : ℝ))) ∧
      radius ((1 : ℝ), (0 : ℝ)) ((0 : ℝ), (1 : ℝ)) ^ 2 =
        npnorm (center ((1 : ℝ), (0 : ℝ)) ((0 : ℝ), (1 : ℝ))) ^ 2 - 1) := by
  have hne : (((1 : ℝ), (0 : ℝ)) : Point2) ≠ ((0 : ℝ), (1 : ℝ)) := by
    intro h
    have h' := congrArg Prod.fst h
    norm_num at h'
  exact ⟨by norm_num, by norm_num, hne,
    orthogonal_circle_property _ _ (by norm_num) (by norm_num) hne not_allclose_1 not_deg_1⟩

theorem one_lt_npnorm_iff (v : Point2) : 1 < npnorm v ↔ 1 < v.1 ^ 2 + v.2 ^ 2 := by
  unfold npnorm
  rw [Real.lt_sqrt (by norm_num)]
  norm_num

theorem sqrt_le_one_of_le {x : ℝ} (h : x ≤ 1) : Real.sqrt x ≤ 1 := by
  rw [show (1 : ℝ) = Real.sqrt 1 by rw [Real.sqrt_one]]
  exact Real.sqrt_le_sqrt h

theorem linspace_mem_bounds (a b : ℝ) (n : ℕ) (hab : a ≤ b) {x : ℝ}
    (hx : x ∈ linspace a b n) : a ≤ x ∧ x ≤ b := by
  unfold linspace at hx
  obtain ⟨k, hk, rfl⟩ := List.mem_map.mp hx
  have hkn : k < n := List.mem_range.mp hk
  by_cases hn1 : n = 1
  · have hk0 : k = 0 := by omega
    subst hk0
    subst hn1
    norm_num
    exact hab
  · have hn2 : 2 ≤ n := by omega
    have hpos : (0 : ℝ) < (n : ℝ) - 1 := by
      have h : (2 : ℝ) ≤ (n : ℝ) := by exact_mod_cast hn2
      linarith
    have hkr : (k : ℝ) ≤ (n : ℝ) - 1 := by
      have h : (k : ℝ) + 1 ≤ (n : ℝ) := by exact_mod_cast hkn
      linarith
    constructor
    · have h : 0 ≤ (k : ℝ) * ((b - a) / ((n : ℝ) - 1)) :=
        mul_nonneg (Nat.cast_nonneg k) (div_nonneg (by linarith) hpos.le)
      linarith
    · have hstep : (k : ℝ) * ((b - a) / ((n : ℝ) - 1))
          ≤ ((n : ℝ) - 1) * ((b - a) / ((n : ℝ) - 1)) :=
        mul_le_mul_of_nonneg_right hkr (div_nonneg (by linarith) hpos.le)
      have heq : ((n : ℝ) - 1) * ((b - a) / ((n : ℝ) - 1)) = b - a := by
        field_simp
      linarith

theorem pointAt_norm_sq (p1 p2 : Point2) (a : ℝ) :
    (pointAt p1 p2 a).1 ^ 2 + (pointAt p1 p2 a).2 ^ 2
      = ((center p1 p2).1 ^ 2 + (center p1 p2).2 ^ 2) + radius p1 p2 ^ 2
        + 2 * radius p1 p2
          * ((center p1 p2).1 * Real.cos a + (center p1 p2).2 * Real.sin a) := by
  unfold pointAt
  linear_combination (radius p1 p2 ^ 2) * Real.sin_sq_add_cos_sq a

theorem cos_comb_as_amplitude (u v : ℝ) (hz : (⟨u, v⟩ : ℂ) ≠ 0) (a : ℝ) :
    u * Real.cos a + v * Real.sin a
      = Complex.abs ⟨u, v⟩ * Real.cos (a - Complex.arg ⟨u, v⟩) := by
  have hcos := Complex.cos_arg hz
  have hsin := Complex.sin_arg (⟨u, v⟩ : ℂ)
  have habs : Complex.abs ⟨u, v⟩ ≠ 0 := Complex.abs.ne_zero hz
  rw [Real.cos_sub, hcos, hsin]
  rw [show ((⟨u, v⟩ : ℂ).re) = u from rfl, show ((⟨u, v⟩ : ℂ).im) = v from rfl]
  field_simp
  ring

theorem cos_eq_cos_midpoint_mul_pi (x y : ℝ) (hcos : Real.cos x = Real.cos y)
    (h1 : 0 < y - x) (h2 : y - x < 2 * π) : ∃ k : ℤ, (x + y) / 2 = k * π := by
  have h := Real.cos_sub_cos x y
  rw [hcos, sub_self] at h
  have hprod : Real.sin ((x + y) / 2) * Real.sin ((x - y) / 2) = 0 := by
    linear_combination h / 2
  have hs2 : Real.sin ((x - y) / 2) ≠ 0 := by
    have hpos : 0 < Real.sin ((y - x) / 2) :=
      Real.sin_pos_of_pos_of_lt_pi (by linarith) (by linarith)
    rw [show (x - y) / 2 = -((y - x) / 2) by ring, Real.sin_neg]
    intro h0
    rw [neg_eq_zero] at h0
    rw [h0] at hpos
    exact lt_irrefl 0 hpos
  have hs1 : Real.sin ((x + y) / 2) = 0 := by
    rcases mul_eq_zero.mp hprod with h' | h'
    · exact h'
    · exact absurd h' hs2
  obtain ⟨k, hk⟩ := Real.sin_eq_zero_iff.mp hs1
  exact ⟨k, hk.symm⟩

theorem cos_comb_le_on_interval (u v r b1 b2 : ℝ) (hr : 0 < r)
    (huv : u ^ 2 + v ^ 2 = 1 + r ^ 2)
    (hb1 : u * Real.cos b1 + v * Real.sin b1 = -r)
    (hb2 : u * Real.cos b2 + v * Real.sin b2 = -r)
    (hgt : 0 < b2 - b1) (hlt : b2 - b1 < 2 * π)
    (hmid : u * Real.cos ((b1 + b2) / 2) + v * Real.sin ((b1 + b2) / 2) ≤ -r) :
    ∀ a, b1 ≤ a → a ≤ b2 → u * Real.cos a + v * Real.sin a ≤ -r := by
  have hz : (⟨u, v⟩ : ℂ) ≠ 0 := by
    intro h
    have hu : u = 0 := by simpa using congrArg Complex.re h
    have hv : v = 0 := by simpa using congrArg Complex.im h
    rw [hu, hv] at huv
    nlinarith
  have hrep : ∀ a, u * Real.cos a + v * Real.sin a
      = Complex.abs ⟨u, v⟩ * Real.cos (a - Complex.arg ⟨u, v⟩) :=
    cos_comb_as_amplitude u v hz
  set R := Complex.abs (⟨u, v⟩ : ℂ) with hR
  set φ := Complex.arg (⟨u, v⟩ : ℂ) with hφ
  have hRpos : 0 < R := Complex.abs.pos hz
  have hR2 : R ^ 2 = 1 + r ^ 2 := by
    rw [hR, Complex.sq_abs, Complex.normSq_mk]
    linear_combination huv
  have hrR : r < R := by nlinarith
  have f1 : R * Real.cos (b1 - φ) = -r := by rw [← hrep]; exact hb1
  have f2 : R * Real.cos (b2 - φ) = -r := by rw [← hrep]; exact hb2
  have hcc : Real.cos (b1 - φ) = Real.cos (b2 - φ) :=
    mul_left_cancel₀ hRpos.ne' (f1.trans f2.symm)
  obtain ⟨k, hk⟩ :=
    cos_eq_cos_midpoint_mul_pi (b1 - φ) (b2 - φ) hcc (by linarith) (by linarith)
  have hk' : (b1 + b2) / 2 - φ = (k : ℝ) * π := by linarith
  have fmid : R * Real.cos ((b1 + b2) / 2 - φ) ≤ -r := by rw [← hrep]; exact hmid
  rw [hk'] at fmid
  have hodd : Real.cos ((k : ℝ) * π) = -1 := by
    rcases Int.even_or_odd k with ⟨m, hm⟩ | ⟨m, hm⟩
    · exfalso
      have hone : Real.cos ((k : ℝ) * π) = 1 := by
        subst hm
        push_cast
        rw [show ((m : ℝ) + (m : ℝ)) * π = (m : ℝ) * (2 * π) by ring]
        exact Real.cos_int_mul_two_pi m
      rw [hone] at fmid
      nlinarith
    · subst hm
      push_cast
      rw [show (2 * (m : ℝ) + 1) * π = (m : ℝ) * (2 * π) + π by ring]
      exact Real.cos_int_mul_two_pi_add_pi m
  have hb1φ : b1 - φ = (k : ℝ) * π - (b2 - b1) / 2 := by linarith
  have hcosδ : R * Real.cos ((b2 - b1) / 2) = r := by
    have f1' := f1
    rw [hb1φ, Real.cos_sub, Real.sin_int_mul_pi, hodd] at f1'
    linear_combination -f1'
  intro a ha1 ha2
  rw [hrep a]
  have hs : a - φ = (k : ℝ) * π + (a - (b1 + b2) / 2) := by linarith
  rw [hs, Real.cos_add, Real.sin_int_mul_pi, hodd]
  have hδlt : (b2 - b1) / 2 < π := by linarith
  have hsbound : |a - (b1 + b2) / 2| ≤ (b2 - b1) / 2 := by
    rw [abs_le]
    constructor <;> linarith
  have hcs : Real.cos ((b2 - b1) / 2) ≤ Real.cos (a - (b1 + b2) / 2) := by
    rw [← Real.cos_abs (a - (b1 + b2) / 2)]
    exact Real.cos_le_cos_of_nonneg_of_le_pi (abs_nonneg _) hδlt.le hsbound
  nlinarith [mul_le_mul_of_nonneg_left hcs hRpos.le, hcosδ]

theorem cos_comb_flip (u v r b1 b2 : ℝ) (hr : 0 < r)
    (huv : u ^ 2 + v ^ 2 = 1 + r ^ 2)
    (hb1 : u * Real.cos b1 + v * Real.sin b1 = -r)
    (hb2 : u * Real.cos b2 + v * Real.sin b2 = -r)
    (hgt : 0 < b2 - b1) (hlt : b2 - b1 < 2 * π)
    (hmid : -r < u * Real.cos ((b1 + b2) / 2) + v * Real.sin ((b1 + b2) / 2)) :
    u * Real.cos ((b1 + b2) / 2 - π) + v * Real.sin ((b1 + b2) / 2 - π) ≤ -r := by
  have hz : (⟨u, v⟩ : ℂ) ≠ 0 := by
    intro h
    have hu : u = 0 := by simpa using congrArg Complex.re h
    have hv : v = 0 := by simpa using congrArg Complex.im h
    rw [hu, hv] at huv
    nlinarith
  have hrep : ∀ a, u * Real.cos a + v * Real.sin a
      = Complex.abs ⟨u, v⟩ * Real.cos (a - Complex.arg ⟨u, v⟩) :=
    cos_comb_as_amplitude u v hz
  set R := Complex.abs (⟨u, v⟩ : ℂ) with hR
  set φ := Complex.arg (⟨u, v⟩ : ℂ) with hφ
  have hRpos : 0 < R := Complex.abs.pos hz
  have hR2 : R ^ 2 = 1 + r ^ 2 := by
    rw [hR, Complex.sq_abs, Complex.normSq_mk]
    linear_combination huv
  have hrR : r < R := by nlinarith
  have f1 : R * Real.cos (b1 - φ) = -r := by rw [← hrep]; exact hb1
  have f2 : R * Real.cos (b2 - φ) = -r := by rw [← hrep]; exact hb2
  have hcc : Real.cos (b1 - φ) = Real.cos (b2 - φ) :=
    mul_left_cancel₀ hRpos.ne' (f1.trans f2.symm)
  obtain ⟨k, hk⟩ :=
    cos_eq_cos_midpoint_mul_pi (b1 - φ) (b2 - φ) hcc (by linarith) (by linarith)
  have hk' : (b1 + b2) / 2 - φ = (k : ℝ) * π := by linarith
  have fmid : -r < R * Real.cos ((k : ℝ) * π) := by
    rw [← hk', ← hrep]
    exact hmid
  rcases Int.even_or_odd k with ⟨m, hm⟩ | ⟨m, hm⟩
  · subst hm
    rw [hrep]
    have hs : (b1 + b2) / 2 - π - φ = ((m - 1 : ℤ) : ℝ) * (2 * π) + π := by
      push_cast at hk' ⊢
      linarith
    rw [hs, Real.cos_int_mul_two_pi_add_pi]
    nlinarith
  · exfalso
    have hcos : Real.cos ((k : ℝ) * π) = -1 := by
      subst hm
      push_cast
      rw [show (2 * (m : ℝ) + 1) * π = (m : ℝ) * (2 * π) + π by ring]
      exact Real.cos_int_mul_two_pi_add_pi m
    rw [hcos] at fmid
    nlinarith

theorem g_angle1 (p1 p2 : Point2) (hne : p1 ≠ p2) (hrhs : rhsCoeff p1 p2 ≠ 0)
    (hc1 : p1.1 ^ 2 + p1.2 ^ 2 = 1) :
    (center p1 p2).1 * Real.cos (angle1 p1 p2) + (center p1 p2).2 * Real.sin (angle1 p1 p2)
      = -radius p1 p2 := by
  have hns := pointAt_norm_sq p1 p2 (angle1 p1 p2)
  rw [pointAt_angle1 hne, hc1] at hns
  have horth := orthogonality p1 p2 hrhs
  have hrpos := radius_pos hne
  have key : radius p1 p2 * (((center p1 p2).1 * Real.cos (angle1 p1 p2)
      + (center p1 p2).2 * Real.sin (angle1 p1 p2)) + radius p1 p2) = 0 := by
    linear_combination (-(1 : ℝ) / 2) * hns + ((1 : ℝ) / 2) * horth
  rcases mul_eq_zero.mp key with h | h
  · exact absurd h hrpos.ne'
  · linarith

theorem g_angle2 (p1 p2 : Point2) (hne : p1 ≠ p2) (hrhs : rhsCoeff p1 p2 ≠ 0)
    (hc2 : p2.1 ^ 2 + p2.2 ^ 2 = 1) :
    (center p1 p2).1 * Real.cos (angle2 p1 p2) + (center p1 p2).2 * Real.sin (angle2 p1 p2)
      = -radius p1 p2 := by
  have hns := pointAt_norm_sq p1 p2 (angle2 p1 p2)
  rw [pointAt_angle2 hne, hc2] at hns
  have horth := orthogonality p1 p2 hrhs
  have hrpos := radius_pos hne
  have key : radius p1 p2 * (((center p1 p2).1 * Real.cos (angle2 p1 p2)
      + (center p1 p2).2 * Real.sin (angle2 p1 p2)) + radius p1 p2) = 0 := by
    linear_combination (-(1 : ℝ) / 2) * hns + ((1 : ℝ) / 2) * horth
  rcases mul_eq_zero.mp key with h | h
  · exact absurd h hrpos.ne'
  · linarith

theorem angle1_mem_Ioc (p1 p2 : Point2) : -π < angle1 p1 p2 ∧ angle1 p1 p2 ≤ π := by
  unfold angle1 atan2
  exact ⟨Complex.neg_pi_lt_arg _, Complex.arg_le_pi _⟩

theorem angle2_mem_Ioc (p1 p2 : Point2) : -π < angle2 p1 p2 ∧ angle2 p1 p2 ≤ π := by
  unfold angle2 atan2
  exact ⟨Complex.neg_pi_lt_arg _, Complex.arg_le_pi _⟩

theorem angle1_ne_angle2 (p1 p2 : Point2) (hne : p1 ≠ p2) :
    angle1 p1 p2 ≠ angle2 p1 p2 := by
  intro h
  have h1 := pointAt_angle1 hne
  have h2 := pointAt_angle2 hne
  rw [h] at h1
  exact hne (h1.symm.trans h2)

theorem orderedAngles_lt (p1 p2 : Point2) (hne : p1 ≠ p2) :
    (orderedAngles p1 p2).1 < (orderedAngles p1 p2).2 ∧
    (orderedAngles p1 p2).2 - (orderedAngles p1 p2).1 < 2 * π := by
  have hne12 := angle1_ne_angle2 p1 p2 hne
  have h1 := angle1_mem_Ioc p1 p2
  have h2 := angle2_mem_Ioc p1 p2
  unfold orderedAngles
  split_ifs with h
  · constructor
    · exact h
    · show angle1 p1 p2 - angle2 p1 p2 < 2 * π
      linarith [h1.1, h1.2, h2.1, h2.2]
  · constructor
    · show angle1 p1 p2 < angle2 p1 p2
      exact lt_of_le_of_ne (not_lt.mp h) hne12
    · show angle2 p1 p2 - angle1 p1 p2 < 2 * π
      linarith [h1.1, h1.2, h2.1, h2.2]

theorem orderedAngles_g (p1 p2 : Point2) (hne : p1 ≠ p2) (hrhs : rhsCoeff p1 p2 ≠ 0)
    (hc1 : p1.1 ^ 2 + p1.2 ^ 2 = 1) (hc2 : p2.1 ^ 2 + p2.2 ^ 2 = 1) :
    ((center p1 p2).1 * Real.cos (orderedAngles p1 p2).1
      + (center p1 p2).2 * Real.sin (orderedAngles p1 p2).1 = -radius p1 p2) ∧
    ((center p1 p2).1 * Real.cos (orderedAngles p1 p2).2
      + (center p1 p2).2 * Real.sin (orderedAngles p1 p2).2 = -radius p1 p2) := by
  have hg1 := g_angle1 p1 p2 hne hrhs hc1
  have hg2 := g_angle2 p1 p2 hne hrhs hc2
  unfold orderedAngles
  split_ifs with h
  · exact ⟨hg2, hg1⟩
  · exact ⟨hg1, hg2⟩

theorem finalAngles_le (p1 p2 : Point2) (hne : p1 ≠ p2) :
    (finalAngles p1 p2).1 ≤ (finalAngles p1 p2).2 := by
  have hlt := orderedAngles_lt p1 p2 hne
  unfold finalAngles
  split_ifs with h
  · show (orderedAngles p1 p2).2 - 2 * π ≤ (orderedAngles p1 p2).1
    linarith [hlt.2]
  · exact hlt.1.le

theorem arc_branch_inside (p1 p2 : Point2) (hne : p1 ≠ p2)
    (hrhs : rhsCoeff p1 p2 ≠ 0)
    (hc1 : p1.1 ^ 2 + p1.2 ^ 2 = 1) (hc2 : p2.1 ^ 2 + p2.2 ^ 2 = 1) :
    ∀ a, (finalAngles p1 p2).1 ≤ a → a ≤ (finalAngles p1 p2).2 →
      (pointAt p1 p2 a).1 ^ 2 + (pointAt p1 p2 a).2 ^ 2 ≤ 1 := by
  have hrpos := radius_pos hne
  have horth := orthogonality p1 p2 hrhs
  have huv : (center p1 p2).1 ^ 2 + (center p1 p2).2 ^ 2 = 1 + radius p1 p2 ^ 2 := by
    linarith
  have hlt := orderedAngles_lt p1 p2 hne
  have hg := orderedAngles_g p1 p2 hne hrhs hc1 hc2
  have hpt : ∀ a, (pointAt p1 p2 a).1 ^ 2 + (pointAt p1 p2 a).2 ^ 2
      = 1 + 2 * radius p1 p2 ^ 2 + 2 * radius p1 p2
        * ((center p1 p2).1 * Real.cos a + (center p1 p2).2 * Real.sin a) := by
    intro a
    linear_combination pointAt_norm_sq p1 p2 a + huv
  intro a ha1 ha2
  rw [hpt a]
  have hga : (center p1 p2).1 * Real.cos a + (center p1 p2).2 * Real.sin a
      ≤ -radius p1 p2 := by
    unfold finalAngles at ha1 ha2
    by_cases hmid : 1 < npnorm (pointAt p1 p2 (midAngle p1 p2))
    · rw [if_pos hmid] at ha1 ha2
      dsimp only at ha1 ha2
      have hmid2 : -radius p1 p2 < (center p1 p2).1 * Real.cos (midAngle p1 p2)
          + (center p1 p2).2 * Real.sin (midAngle p1 p2) := by
        rw [one_lt_npnorm_iff, hpt (midAngle p1 p2)] at hmid
        nlinarith
      rw [show midAngle p1 p2
          = ((orderedAngles p1 p2).1 + (orderedAngles p1 p2).2) / 2 from rfl] at hmid2
      have hflip := cos_comb_flip (center p1 p2).1 (center p1 p2).2 (radius p1 p2)
        (orderedAngles p1 p2).1 (orderedAngles p1 p2).2 hrpos huv hg.1 hg.2
        (sub_pos.mpr hlt.1) hlt.2 hmid2
      have hb1' : (center p1 p2).1 * Real.cos ((orderedAngles p1 p2).2 - 2 * π)
          + (center p1 p2).2 * Real.sin ((orderedAngles p1 p2).2 - 2 * π)
          = -radius p1 p2 := by
        rw [Real.cos_sub_two_pi, Real.sin_sub_two_pi]
        exact hg.2
      have hmain := cos_comb_le_on_interval (center p1 p2).1 (center p1 p2).2
        (radius p1 p2) ((orderedAngles p1 p2).2 - 2 * π) (orderedAngles p1 p2).1
        hrpos huv hb1' hg.1 (by linarith [hlt.2]) (by linarith [sub_pos.mpr hlt.1])
        (by
          rw [show ((orderedAngles p1 p2).2 - 2 * π + (orderedAngles p1 p2).1) / 2
              = ((orderedAngles p1 p2).1 + (orderedAngles p1 p2).2) / 2 - π by ring]
          exact hflip)
      exact hmain a ha1 ha2
    · rw [if_neg hmid] at ha1 ha2
      have hS : (pointAt p1 p2 (midAngle p1 p2)).1 ^ 2
          + (pointAt p1 p2 (midAngle p1 p2)).2 ^ 2 ≤ 1 := by
        by_contra hcon
        push_neg at hcon
        exact hmid ((one_lt_npnorm_iff _).mpr hcon)
      rw [hpt (midAngle p1 p2)] at hS
      have hmid2 : (center p1 p2).1 * Real.cos (midAngle p1 p2)
          + (center p1 p2).2 * Real.sin (midAngle p1 p2) ≤ -radius p1 p2 := by
        nlinarith
      rw [show midAngle p1 p2
          = ((orderedAngles p1 p2).1 + (orderedAngles p1 p2).2) / 2 from rfl] at hmid2
      have hmain := cos_comb_le_on_interval (center p1 p2).1 (center p1 p2).2
        (radius p1 p2) (orderedAngles p1 p2).1 (orderedAngles p1 p2).2
        hrpos huv hg.1 hg.2 (sub_pos.mpr hlt.1) hlt.2 hmid2
      exact hmain a ha1 ha2
  nlinarith [hga, hrpos]

theorem diameter_mem_inside (p1 p2 : Point2) (n : ℕ)
    (hc1 : p1.1 ^ 2 + p1.2 ^ 2 = 1) (hc2 : p2.1 ^ 2 + p2.2 ^ 2 = 1)
    {q : Point3} (hq : q ∈ diameterPoints p1 p2 n) :
    q.1 ^ 2 + q.2.1 ^ 2 + q.2.2 ^ 2 ≤ 1 := by
  unfold diameterPoints at hq
  obtain ⟨t, ht, rfl⟩ := List.mem_map.mp hq
  obtain ⟨ht0, ht1⟩ := linspace_mem_bounds 0 1 n (by norm_num) ht
  show ((1 - t) * p1.1 + t * p2.1) ^ 2 + ((1 - t) * p1.2 + t * p2.2) ^ 2 + (0 : ℝ) ^ 2 ≤ 1
  have hA : ((1 - t) * p1.1 + t * p2.1) ^ 2 + ((1 - t) * p1.2 + t * p2.2) ^ 2 + (0 : ℝ) ^ 2
      = 1 - 2 * (t * (1 - t) * (1 - (p1.1 * p2.1 + p1.2 * p2.2))) := by
    linear_combination ((1 - t) ^ 2) * hc1 + (t ^ 2) * hc2
  rw [hA]
  have hdot : p1.1 * p2.1 + p1.2 * p2.2 ≤ 1 := by
    nlinarith [sq_nonneg (p1.1 - p2.1), sq_nonneg (p1.2 - p2.2)]
  have hkey : 0 ≤ t * (1 - t) * (1 - (p1.1 * p2.1 + p1.2 * p2.2)) :=
    mul_nonneg (mul_nonneg ht0 (by linarith)) (by linarith)
  linarith

/-- C4: for distinct points lying exactly on the unit circle, every sampled
point of the returned path has Euclidean norm at most 1: the selected arc
(or diameter fallback) stays inside or on the closed unit disk. -/
theorem geodesic_arc_in_disk (p1 p2 : Point2) (n : ℕ)
    (hc1 : p1.1 ^ 2 + p1.2 ^ 2 = 1) (hc2 : p2.1 ^ 2 + p2.2 ^ 2 = 1) (hne : p1 ≠ p2) :
    ∀ q ∈ geodesicArcP p1 p2 n, Real.sqrt (q.1 ^ 2 + q.2.1 ^ 2 + q.2.2 ^ 2) ≤ 1 := by
  intro q hq
  unfold geodesicArcP at hq
  apply sqrt_le_one_of_le
  split_ifs at hq with h1 h2
  · exact diameter_mem_inside p1 p2 n hc1 hc2 hq
  · exact diameter_mem_inside p1 p2 n hc1 hc2 hq
  · unfold arcPoints at hq
    obtain ⟨a, ha, rfl⟩ := List.mem_map.mp hq
    obtain ⟨ha1, ha2⟩ := linspace_mem_bounds _ _ n (finalAngles_le p1 p2 hne) ha
    have hrhs : rhsCoeff p1 p2 ≠ 0 := rhsCoeff_ne_of_not_lt h2
    have h := arc_branch_inside p1 p2 hne hrhs hc1 hc2 a ha1 ha2
    show (pointAt p1 p2 a).1 ^ 2 + (pointAt p1 p2 a).2 ^ 2 + (0 : ℝ) ^ 2 ≤ 1
    nlinarith [h]

/-- Witness for C4 at `p1 = (1,0)`, `p2 = (0,1)`, `n = 2`. -/
theorem geodesic_arc_in_disk_witness :
    ((1 : ℝ) ^ 2 + (0 : ℝ) ^ 2 = 1) ∧ ((0 : ℝ) ^ 2 + (1 : ℝ) ^ 2 = 1) ∧
    (((1 : ℝ), (0 : ℝ)) : Point2) ≠ ((0 : ℝ), (1 : ℝ)) ∧
    ∀ q ∈ geodesicArcP ((1 : ℝ), (0 : ℝ)) ((0 : ℝ), (1 : ℝ)) 2,
      Real.sqrt (q.1 ^ 2 + q.2.1 ^ 2 + q.2.2 ^ 2) ≤ 1 := by
  have hne : (((1 : ℝ), (0 : ℝ)) : Point2) ≠ ((0 : ℝ), (1 : ℝ)) := by
    intro h
    have h' := congrArg Prod.fst h
    norm_num at h'
  exact ⟨by norm_num, by norm_num, hne,
    geodesic_arc_in_disk _ _ 2 (by norm_num) (by norm_num) hne⟩
